/-
  Verification of the package-manager-enhancer repository against its
  natural-language specification.

  Shallow embedding conventions:
  * Filesystem paths are lists of segments (`List String`), root = `[]`.
    POSIX `dirname` is `List.dropLast`, `basename` is `List.getLastD ""`,
    `resolve cwd rel` appends the relative path's segments.
  * The async filesystem API (`fs.access`, `fs.readdir`) is modelled by
    `FsModel`: `accessOk` says whether `fs.access(p, F_OK)` resolves,
    `readdir` returns the directory listing or `none` for a rejected
    promise.  A rejected promise caught by `.catch`/`try` is modelled as
    the corresponding fallback value.
  * External collaborators (glob matcher, hosted-git-info, the npm package
    name validator, the lossless JSONC parser) are black boxes per the
    spec; they appear either as function parameters or as small models of
    their documented behaviour, and the code under `src/` is translated
    around them.
-/
import Mathlib

namespace PME

/-! ### JavaScript string primitives

The source is JavaScript, so its string methods are modelled directly
(over `List Char`, which the kernel evaluates): `startsWith`, `endsWith`,
`toLowerCase` (the source only lower-cases ASCII file names), and
splitting a POSIX relative path at `/`. -/

/-- JS `String.prototype.startsWith(pre)` (at index 0). -/
def jsStartsWith (s pre : String) : Bool :=
  pre.data.isPrefixOf s.data

/-- JS `String.prototype.endsWith(suf)`. -/
def jsEndsWith (s suf : String) : Bool :=
  suf.data.isSuffixOf s.data

/-- JS `String.prototype.toLowerCase()` on the ASCII letters the source
applies it to. -/
def jsToLower (s : String) : String :=
  ⟨s.data.map (fun c =>
    if 65 ≤ c.toNat ∧ c.toNat ≤ 90 then Char.ofNat (c.toNat + 32) else c)⟩

/-- Split a POSIX relative path at `/` (used to model
`path.resolve(cwd, rel)` by appending the segments of `rel`). -/
def splitSlash (s : String) : List String :=
  s.data.foldr (fun c acc =>
    match acc with
    | [] => [String.mk [c]]
    | seg :: rest =>
      if c = '/' then "" :: seg :: rest else String.mk (c :: seg.data) :: rest)
    [""]

/-- Model of the async filesystem API used by `src/utils/fs.ts`:
`accessOk p` is whether `fs.access(p, F_OK)` resolves, and `readdir d`
is the listing of directory `d` (`none` models a rejected promise). -/
structure FsModel where
  accessOk : List String → Bool
  readdir : List String → Option (List String)

/-- Translation of `pathExists` from `src/unnamed/part_000` (utils/fs.ts):
`fs.access(path).then(readdir(dirname path) contains basename path).catch(false)`.
Both a failed access and a failed readdir are caught and yield `false`;
the listing membership test is exact string equality (case sensitive). -/
def pathExists (fs : FsModel) (path : List String) : Bool :=
  if fs.accessOk path then
    match fs.readdir path.dropLast with
    | some names => names.contains (path.getLastD "")
    | none => false
  else false

/-! ### findPkgInstallDir (src/utils/pkg.ts lines 14-38) -/

/-- `NODE_MODULES` from `src/utils/constants.ts` (referenced by pkg.ts). -/
def NODE_MODULES : String := "node_modules"

/-- `PACKAGE_JSON` from `src/utils/constants.ts` (referenced by pkg.ts). -/
def PACKAGE_JSON : String := "package.json"

/-- Translation of `findPkgInstallDir` from `src/utils/pkg.ts`: starting
from `dir` (the `dirname` of the realpath-resolved base file, already
computed by the caller), walk upward toward the root (`getRoot`, modelled
as `[]`), at each level testing `pathExists` of both
`<dir>/node_modules/<name>` and `<dir>/node_modules/<name>/package.json`;
return the first hit, or `none` after testing the root itself. -/
def findPkgInstallDir (fs : FsModel) (packageName : String)
    (dir : List String) : Option (List String) :=
  let pkgInstallDir := dir ++ [NODE_MODULES, packageName]
  let pkgJsonPath := pkgInstallDir ++ [PACKAGE_JSON]
  if pathExists fs pkgInstallDir && pathExists fs pkgJsonPath then
    some pkgInstallDir
  else if h : dir = [] then none
  else findPkgInstallDir fs packageName dir.dropLast
  termination_by dir.length
  decreasing_by
    rw [List.length_dropLast]
    have hpos : 0 < dir.length := List.length_pos.mpr h
    omega

/-- A directory `d` qualifies when both `d/node_modules/<name>` and
`d/node_modules/<name>/package.json` exist (`pathExists`). -/
def installDirQualifies (fs : FsModel) (packageName : String)
    (d : List String) : Bool :=
  pathExists fs (d ++ [NODE_MODULES, packageName]) &&
    pathExists fs (d ++ [NODE_MODULES, packageName, PACKAGE_JSON])

/-- The chain of directories the walk visits, nearest first:
`dir`, its parent, ..., the root `[]`. -/
def walkChain (dir : List String) : List (List String) :=
  if h : dir = [] then [[]]
  else dir :: walkChain dir.dropLast
  termination_by dir.length
  decreasing_by
    rw [List.length_dropLast]
    have hpos : 0 < dir.length := List.length_pos.mpr h
    omega

/-- Defined from the spec's words ("returns the nearest — shallowest-walk —
matching ancestor, none if no level between the start and the boundary root
matches"): pick the first qualifying directory along the walk chain. -/
def specInstallDir (fs : FsModel) (packageName : String)
    (dir : List String) : Option (List String) :=
  ((walkChain dir).find? (installDirQualifies fs packageName)).map
    (fun d => d ++ [NODE_MODULES, packageName])

/-- A filesystem whose `access` succeeds regardless of case (as on a
case-insensitive filesystem) but whose directory listing for `pkg`
contains only `Readme.md`. -/
def ciFs : FsModel where
  accessOk := fun _ => true
  readdir := fun d => if d = ["pkg"] then some ["Readme.md"] else none

/-! ### JSONC parse-tree nodes (the lossless parser is a black box; its
`Node` shape — `type`, `value`, `children` — is mirrored here, with source
offsets replaced by tree paths). -/

/-- The `type` field of a jsonc-parser `Node`. -/
inductive JsonNodeType where
  | string
  | number
  | boolean
  | nullType
  | object
  | array
  | property
  deriving DecidableEq, Repr

/-- A jsonc-parser `Node`: its type, its `value` (only string values are
relevant to the translated code; other literals carry `none`), and its
children.  The `parent` pointer is recovered from tree paths. -/
inductive JsonNode where
  | node (type : JsonNodeType) (value : Option String)
      (children : List JsonNode)

def JsonNode.type : JsonNode → JsonNodeType
  | .node t _ _ => t

def JsonNode.value : JsonNode → Option String
  | .node _ v _ => v

def JsonNode.children : JsonNode → List JsonNode
  | .node _ _ c => c

/-! ### Package files code lens (src/codeLens/packageJsonFiles.ts)

The glob expansion service (`globby`) is a black box: it is modelled by
`globbyModel`, parameterised by the glob matcher `m` (pattern → relative
file path → matched) and the list `fsFiles` of candidate files under the
manifest's directory; per its documented semantics it returns the files
matching some non-negated pattern and no `!`-negated pattern.  Existence
checks for default packed files go through `pathExists` on an `FsModel`.
Relative paths returned by the matcher are made absolute with
`resolvePath` (the model of `path.resolve(cwd, file)`). -/

/-- One entry of the `files` array as collected by `getCodeLenses` lines
69-88 (the source-text range, used only for annotation placement, is
omitted). -/
structure FilePattern where
  isNegated : Bool
  pattern : String
  deriving DecidableEq, Repr

/-- `defaultIgnoredPatterns` from src/codeLens/packageJsonFiles.ts lines
17-35: the built-in ignore list, each entry negated with a leading `!`. -/
def defaultIgnoredPatterns : List String :=
  ["node_modules", "package-lock.json", "**/.gitignore", "**/.npmignore",
   "**/npm-debug.log", "**/.npmrc", "**/.git", "**/CVS", "**/.svn",
   "**/.hg", "**/.lock-wscript", "**/.wafpickle-N", "**/.*.swp",
   "**/.DS_Store", "**/._*", "**/config.gypi", "**/*.orig"].map
    (fun p => "!" ++ p)

/-- `defaultIncludedFiles` from src/codeLens/packageJsonFiles.ts line 16. -/
def defaultIncludedFiles : List String :=
  ["package.json", "README.md", "LICENSE.md", "LICENCE.md"]

/-- Translation of the first loop of `getCodeLenses` (lines 74-88): walk
the children of the `files` node; any child whose `type` is not `string`
aborts the whole resolution (`return`); otherwise collect the pattern
text and its negation flag (`pattern.startsWith('!')`). -/
def buildPatternList : List JsonNode → Option (List FilePattern)
  | [] => some []
  | n :: rest =>
    if n.type = JsonNodeType.string then
      (buildPatternList rest).map (fun ps =>
        { isNegated := jsStartsWith (n.value.getD "") "!",
          pattern := n.value.getD "" } :: ps)
    else none

/-- `this._negativePatterns`: the negated patterns collected (with their
leading `!`) from anywhere in the list during the first loop. -/
def negativePatterns (pl : List FilePattern) : List String :=
  (pl.filter (fun i => i.isNegated)).map (fun i => i.pattern)

/-- Model of the globby collaborator (documented semantics, per the spec a
black-box oracle): given the matcher `m` and the candidate files under
`cwd`, return the files that match some non-`!` pattern and match no
`!`-prefixed pattern. -/
def globbyModel (m : String → String → Bool) (fsFiles : List String)
    (patterns : List String) : List String :=
  fsFiles.filter (fun f =>
    (patterns.any (fun p => !jsStartsWith p "!" && m p f)) &&
    !(patterns.any (fun p => jsStartsWith p "!" && m (p.drop 1) f)))

/-- The pattern array passed to globby for one `files` entry (lines
98-100): a negated entry is expanded positively on its own (leading `!`
sliced off); a non-negated entry is combined with every collected negated
pattern. -/
def itemPatterns (negPats : List String) (item : FilePattern) :
    List String :=
  if item.isNegated then [item.pattern.drop 1] else item.pattern :: negPats

/-- The globby call for one `files` entry (lines 101-111): the entry's
patterns plus the built-in ignore list. -/
def expandItem (m : String → String → Bool) (fsFiles : List String)
    (negPats : List String) (item : FilePattern) : List String :=
  globbyModel m fsFiles (itemPatterns negPats item ++ defaultIgnoredPatterns)

/-- `path.resolve(cwd, relFile)` for the POSIX relative paths produced by
glob expansion: append the relative path's segments to `cwd`. -/
def resolvePath (cwd : List String) (relFile : String) : List String :=
  cwd ++ splitSlash relFile

/-- `Set.add` of the JS `Set` accumulating `totalFiles`: insertion-ordered,
deduplicating. -/
def setAdd (acc : List (List String)) (x : List String) :
    List (List String) :=
  if x ∈ acc then acc else acc ++ [x]

/-- One entry's contribution to `totalFiles` (lines 112-118): the
expansion's files made absolute against `cwd`. -/
def resolvedExpansion (m : String → String → Bool) (fsFiles : List String)
    (cwd : List String) (negPats : List String) (item : FilePattern) :
    List (List String) :=
  (expandItem m fsFiles negPats item).map (resolvePath cwd)

/-- The accumulation of the per-entry expansions into the `totalFiles`
set, in the order the expansions complete (modelled as list order; claim
C9 shows the resulting set is order-independent). -/
def accumulate (exps : List (List (List String))) : List (List String) :=
  exps.foldl (fun acc e => e.foldl setAdd acc) []

/-- `totalFiles` after all expansions settle (lines 90-128): only
non-negated entries contribute (line 114 guards `item.isNegated`), each
combined with all negated patterns of the list. -/
def totalFilesOf (m : String → String → Bool) (fsFiles : List String)
    (cwd : List String) (pl : List FilePattern) : List (List String) :=
  accumulate ((pl.filter (fun i => !i.isNegated)).map
    (resolvedExpansion m fsFiles cwd (negativePatterns pl)))

/-- Translation of the candidate loop for a `.md` default file (lines
157-173): try, in order, the file itself, the file with the `.md`
extension stripped, the lower-cased file, and the lower-cased file with
`.md` stripped; add the first existing candidate and stop. -/
def addFirstExisting (dfs : FsModel) (acc : List (List String)) :
    List (List String) → List (List String)
  | [] => acc
  | c :: rest =>
    if pathExists dfs c then setAdd acc c else addFirstExisting dfs acc rest

/-- The ordered candidate list for a `.md` default file (lines 158-169). -/
def mdCandidates (cwd : List String) (file : String) : List (List String) :=
  [resolvePath cwd file,
   resolvePath cwd (file.dropRight 3),
   resolvePath cwd (jsToLower file),
   resolvePath cwd ((jsToLower file).dropRight 3)]

/-- One iteration of the `defaultIncludedFiles` loop (lines 155-178):
`.md` entries probe their candidate list, others are added when they
exist. -/
def addDefaultsStep (dfs : FsModel) (cwd : List String)
    (acc : List (List String)) (file : String) : List (List String) :=
  if jsEndsWith file ".md" then addFirstExisting dfs acc (mdCandidates cwd file)
  else if pathExists dfs (resolvePath cwd file) then
    setAdd acc (resolvePath cwd file)
  else acc

/-- The `all` code lens result (lines 137-193): the accumulated
`totalFiles`, and — when `includeDefaultPackedFiles` is set — the default
packed files (package.json, README/LICENSE/LICENCE variants, the `main`
entry) unioned in when they exist on disk.  `mainEntry` is the manifest's
`main` string value when present. -/
def allFilesResult (m : String → String → Bool) (fsFiles : List String)
    (dfs : FsModel) (cwd : List String) (pl : List FilePattern)
    (includeDefaultPackedFiles : Bool) (mainEntry : Option String) :
    List (List String) :=
  let base := totalFilesOf m fsFiles cwd pl
  if !includeDefaultPackedFiles then base
  else
    let withDefaults := defaultIncludedFiles.foldl (addDefaultsStep dfs cwd) base
    match mainEntry with
    | some mv =>
      if pathExists dfs (resolvePath cwd mv) then
        setAdd withDefaults (resolvePath cwd mv)
      else withDefaults
    | none => withDefaults

/-- Translation of `getCodeLenses`'s resolution outcome for one manifest:
`none` when the `files` node has no children or some child is not a
string (lines 62-75), otherwise the resolved all-files set. -/
def getCodeLensesModel (m : String → String → Bool) (fsFiles : List String)
    (dfs : FsModel) (cwd : List String) (filesChildren : List JsonNode)
    (includeDefaultPackedFiles : Bool) (mainEntry : Option String) :
    Option (List (List String)) :=
  if filesChildren.isEmpty then none
  else
    (buildPatternList filesChildren).map (fun pl =>
      allFilesResult m fsFiles dfs cwd pl includeDefaultPackedFiles mainEntry)

/-- Sample matcher for concrete instantiations: a pattern matches exactly
the file equal to it. -/
def sampleMatcher : String → String → Bool := fun p f => p == f

/-- A sample `files` pattern list with a trailing negated entry. -/
def samplePl : List FilePattern :=
  [⟨false, "a"⟩, ⟨false, "b"⟩, ⟨true, "!c"⟩]

/-- The sample expansion list of `samplePl`, merged in reversed order. -/
def sampleSwapped : List (List (List String)) :=
  [resolvedExpansion sampleMatcher ["a", "b", "c"] []
    (negativePatterns samplePl) ⟨false, "b"⟩,
   resolvedExpansion sampleMatcher ["a", "b", "c"] []
    (negativePatterns samplePl) ⟨false, "a"⟩]

/-- A package root `pkg` whose only file is the mixed-case `Readme.md`
(no `README.md`). -/
def readmeOnlyMixedFs : FsModel where
  accessOk := fun p =>
    decide (p ∈ ([["pkg"], ["pkg", "Readme.md"]] : List (List String)))
  readdir := fun d => if d = ["pkg"] then some ["Readme.md"] else none

/-- A package root `pkg` containing both `README.md` and `readme.md`. -/
def readmeUpperLowerFs : FsModel where
  accessOk := fun p =>
    decide (p ∈ ([["pkg"], ["pkg", "README.md"], ["pkg", "readme.md"]] :
      List (List String)))
  readdir := fun d =>
    if d = ["pkg"] then some ["README.md", "readme.md"] else none

/-! ### getPkgNameAndVersionFromDocPosition (src/utils/pkg.ts lines 40-82)

The lossless parser and `findNodeAtOffset` are black boxes: the embedding
takes the parse tree and the tree path of the node the parser located at
the cursor.  JS reference equality between nodes of one tree is path
equality.  A JS `TypeError` (reading a property of `undefined`) is
`Except.error ()`. -/

/-- Look up the node at a tree path. -/
def nodeAt : JsonNode → List Nat → Option JsonNode
  | root, [] => some root
  | root, i :: rest =>
    match root.children.get? i with
    | some c => nodeAt c rest
    | none => none

/-- The dependency-map property names scanned by
`getPkgNameAndVersionFromDocPosition`. -/
def dependenciesNodePath : List String :=
  ["dependencies", "devDependencies", "peerDependencies",
   "optionalDependencies"]

/-- Model of jsonc-parser `findNodeAtLocation(root, [key])`: on an object
root, the tree path of the value node of the property named `key`
(`none` when the key is missing, the root is not an object, or the
property has no value node). -/
def findLocPath (root : JsonNode) (key : String) : Option (List Nat) :=
  if root.type = JsonNodeType.object then
    match root.children.findIdx? (fun c =>
      decide (c.type = JsonNodeType.property) &&
      (match c.children.head? with
       | some k => decide (k.value = some key)
       | none => false)) with
    | some i =>
      match root.children.get? i with
      | some c => if c.children.length ≥ 2 then some [i, 1] else none
      | none => none
    | none => none
  else none

/-- `dependenciesNodes` of the source: the four `findNodeAtLocation`
results in order (entries may be `none`, exactly as the JS array may hold
`undefined`). -/
def depNodePaths (root : JsonNode) : List (Option (List Nat)) :=
  dependenciesNodePath.map (fun k => findLocPath root k)

/-- `nameNode.parent?.parent` as a tree path (`none` when the path is too
short, i.e. the JS parent chain hits `undefined`). -/
def grandPath (path : List Nat) : Option (List Nat) :=
  if path.length < 2 then none else some path.dropLast.dropLast

/-- The successful result of `getPkgNameAndVersionFromDocPosition`. -/
structure LocMatch where
  name : String
  version : String
  deriving DecidableEq, Repr

/-- Translation of `getPkgNameAndVersionFromDocPosition` (src/utils/pkg.ts
lines 40-82) over the parse tree `root` and the path of the node
`findNodeAtOffset` returned.  `validName` is the black-box
validate-npm-package-name check.  The JS evaluation order is kept:
`const versionNode = nameNode.parent.children![1]` is read before the
`children?.length === 2` guard, so when the parent has fewer than two
children and the name check has already passed, `versionNode.type` throws
(`Except.error ()`). -/
def getPkgNameAndVersionFromDocPosition (validName : String → Bool)
    (root : JsonNode) (path : List Nat) : Except Unit (Option LocMatch) :=
  match nodeAt root path with
  | none => Except.ok none
  | some nameNode =>
    match (if path = [] then none else nodeAt root path.dropLast) with
    | none => Except.ok none
    | some parent =>
      if nameNode.type ≠ JsonNodeType.string then Except.ok none
      else
        match parent.children.get? 1 with
        | none => Except.error ()
        | some versionNode =>
          if versionNode.type ≠ JsonNodeType.string then Except.ok none
          else if parent.type ≠ JsonNodeType.property then Except.ok none
          else if parent.children.length ≠ 2 then Except.ok none
          else if path.getLast? ≠ some 0 then Except.ok none
          else if !(depNodePaths root).contains (grandPath path) then
            Except.ok none
          else
            match nameNode.value with
            | none => Except.ok none
            | some pkgName =>
              if validName pkgName then
                Except.ok (some ⟨pkgName, versionNode.value.getD ""⟩)
              else Except.ok none

/-- The parse tree of the well-formed manifest `{"files": ["x"]}`. -/
def filesArrayManifest : JsonNode :=
  JsonNode.node JsonNodeType.object none
    [JsonNode.node JsonNodeType.property none
      [JsonNode.node JsonNodeType.string (some "files") [],
       JsonNode.node JsonNodeType.array none
         [JsonNode.node JsonNodeType.string (some "x") []]]]

/-- The parse tree of `{"dependencies": {"lodash": "^1.0.0"}}`. -/
def depsManifest : JsonNode :=
  JsonNode.node JsonNodeType.object none
    [JsonNode.node JsonNodeType.property none
      [JsonNode.node JsonNodeType.string (some "dependencies") [],
       JsonNode.node JsonNodeType.object none
         [JsonNode.node JsonNodeType.property none
           [JsonNode.node JsonNodeType.string (some "lodash") [],
            JsonNode.node JsonNodeType.string (some "^1.0.0") []]]]]

/-! ### Repository URL derivation (src/utils/pkg-hover-contents.ts) -/

/-- Modelled from the spec: `trimLeftSlash` lives in `src/utils/path.ts`,
which is not included under `src/`; it strips leading `/` characters from
a repository value before hosted-git-info parsing. -/
def trimLeftSlash (s : String) : String :=
  ⟨s.data.dropWhile (fun c => c == '/')⟩

/-- Cut a URL at its first `#` (a commit-ish suffix). -/
def stripCommittish (s : String) : String :=
  ⟨s.data.takeWhile (fun c => !(c == '#'))⟩

/-- First index of `sub` inside `s` (JS `String.prototype.indexOf`,
`none` for `-1`). -/
def indexOfSub : List Char → List Char → Option Nat
  | [], sub => if sub.isEmpty then some 0 else none
  | c :: rest, sub =>
    if sub.isPrefixOf (c :: rest) then some 0
    else
      match indexOfSub rest sub with
      | some i => some (i + 1)
      | none => none

/-- JS `s.indexOf(sub)` as an `Option`. -/
def jsIndexOf (s sub : String) : Option Nat :=
  indexOfSub s.data sub.data

/-- A shorthand `user/repo` candidate: contains a slash and no colon. -/
def looksLikeShorthand (s : String) : Bool :=
  s.data.contains '/' && !s.data.contains ':'

/-- Model of the hosted-git-info collaborator (an external library, a
black box like the other collaborators of the spec): for the recognized
github forms — `user/repo`, `github:user/repo`,
`git+https://github.com/user/repo(.git)(#c)`,
`http(s)://github.com/user/repo(.git)(#c)`, `git://github.com/...` —
`fromUrl(u).https({ noGitPlus: true, noCommittish: true })` returns
`https://github.com/user/repo.git`; other inputs return `none`. -/
def hostedGitHttps (url : String) : Option String :=
  let u := stripCommittish url
  let u := if jsStartsWith u "git+" then u.drop 4 else u
  let rest? :=
    if jsStartsWith u "https://github.com/" then some (u.drop 19)
    else if jsStartsWith u "http://github.com/" then some (u.drop 18)
    else if jsStartsWith u "git://github.com/" then some (u.drop 17)
    else if jsStartsWith u "github:" then some (u.drop 7)
    else if looksLikeShorthand u then some u
    else none
  match rest? with
  | none => none
  | some rest =>
    let rest := if jsEndsWith rest ".git" then rest.dropRight 4 else rest
    match splitSlash rest with
    | [user, repo] =>
      if user ≠ "" ∧ repo ≠ "" then
        some ("https://github.com/" ++ user ++ "/" ++ repo ++ ".git")
      else none
    | _ => none

/-- Translation of `extractGitUrl` (src/utils/pkg-hover-contents.ts lines
22-34): a value matching `/^https?:\/\/.*/i` is used as-is; anything else
goes through hosted-git-info with `noGitPlus` and `noCommittish`; finally
one trailing `.git` is stripped (`replace(/\.git$/, '')`). -/
def extractGitUrl (url : String) : Option String :=
  let result :=
    if jsStartsWith (jsToLower url) "http://" ||
        jsStartsWith (jsToLower url) "https://" then
      some url
    else
      hostedGitHttps (trimLeftSlash url)
  match result with
  | some r => some (if jsEndsWith r ".git" then r.dropRight 4 else r)
  | none => none

/-! ### pkgWebsites (src/utils/pkg-hover-contents.ts lines 167-222) -/

/-- A manifest URL-ish field: a string, an object with an optional string
`url`, or anything else (including absent). -/
inductive UrlField where
  | str (s : String)
  | obj (url : Option String)
  | absent
  deriving DecidableEq, Repr

/-- Translation of `tryGetUrl` (lines 13-20). -/
def tryGetUrl : UrlField → Option String
  | .str s => some s
  | .obj (some u) => some u
  | .obj none => none
  | .absent => none

/-- The three URL-ish manifest fields consumed by `pkgWebsites`. -/
structure PkgManifestUrls where
  repository : UrlField
  homepage : UrlField
  bugs : UrlField
  deriving DecidableEq, Repr

/-- `bugsUrl.slice(0, bugsUrl.indexOf('/issues'))` — the bugs URL with
its first `/issues` and everything after it removed (unchanged when
`/issues` does not occur, as `indexOf` returns `-1` and the slice is
skipped). -/
def bugsToRepo (bugsUrl : String) : String :=
  match jsIndexOf bugsUrl "/issues" with
  | some i => ⟨bugsUrl.data.take i⟩
  | none => bugsUrl

/-- Lines 174-178: the repository URL derived from the `repository` field
alone. -/
def derivedRepoFromField (pkg : PkgManifestUrls) : Option String :=
  match tryGetUrl pkg.repository with
  | some r => extractGitUrl r
  | none => none

/-- Lines 174-189: the repository URL, falling back to the bugs-tracker
URL with `/issues` stripped when the repository field derivation came up
empty. -/
def derivedRepoUrl (pkg : PkgManifestUrls) : Option String :=
  match derivedRepoFromField pkg with
  | some r => some r
  | none =>
    match tryGetUrl pkg.bugs with
    | some b => extractGitUrl (bugsToRepo b)
    | none => none

/-- Lines 171-193 of `pkgWebsites`: the homepage URL (suppressed when
equal to the repository URL, line 191) and the repository URL. -/
def pkgWebsitesUrls (pkg : PkgManifestUrls) : Option String × Option String :=
  let repositoryUrl := derivedRepoUrl pkg
  let homepageUrl := tryGetUrl pkg.homepage
  (if repositoryUrl = homepageUrl then none else homepageUrl, repositoryUrl)

/-- Lines 195-221: the rendered website links, in order — Npm, the
homepage and repository links when present, then the fixed externals. -/
def pkgWebsitesLinks (pkg : PkgManifestUrls) (name : String)
    (installedVersion : Option String) : List String :=
  let urls := pkgWebsitesUrls pkg
  let npmUrl := "https://www.npmjs.com/package/" ++ name ++
    (match installedVersion with
     | some v => "/v/" ++ v
     | none => "")
  let nameAndVersion := name ++
    (match installedVersion with
     | some v => "@" ++ v
     | none => "")
  ["[Npm](" ++ npmUrl ++ ")"] ++
  (match urls.1 with
   | some h => ["[HomePage](" ++ h ++ ")"]
   | none => []) ++
  (match urls.2 with
   | some r => ["[Repository](" ++ r ++ ")"]
   | none => []) ++
  ["[Sync Mirror](https://npmmirror.com/sync/" ++ name ++ ")",
   "[Npm View](https://npmview.vercel.app/" ++ nameAndVersion ++ ")",
   "[Npm Trends](https://npmtrends.com/" ++ name ++ ")",
   "[Npm Graph](https://npmgraph.js.org/?q=" ++ nameAndVersion ++ ")",
   "[Npm Charts](https://npmcharts.com/compare/" ++ name ++ ")",
   "[Npm Stats](https://npm-stat.com/charts.html?package=" ++ name ++ ")",
   "[Moiva](https://moiva.io/?npm=" ++ name ++ ")",
   "[RunKit](https://npm.runkit.com/" ++ name ++ ")"]

/-- A manifest with no repository field, a bugs tracker under `/issues`,
and a homepage equal to the repository the bugs URL denotes. -/
def sampleBugsPkg : PkgManifestUrls where
  repository := UrlField.absent
  homepage := UrlField.str "https://github.com/u/r"
  bugs := UrlField.str "https://github.com/u/r/issues/123"

/-! ### Theorems -/

theorem walkChain_unfold (dir : List String) :
    walkChain dir =
      (if dir = [] then [[]] else dir :: walkChain dir.dropLast) := by
  conv_lhs => unfold walkChain
  split <;> simp

theorem findPkgInstallDir_unfold (fs : FsModel) (name : String)
    (dir : List String) :
    findPkgInstallDir fs name dir =
      (if installDirQualifies fs name dir then
        some (dir ++ [NODE_MODULES, name])
      else if dir = [] then none
      else findPkgInstallDir fs name dir.dropLast) := by
  conv_lhs => unfold findPkgInstallDir
  simp only [installDirQualifies, List.append_assoc]
  rfl

theorem findPkgInstallDir_eq_spec (fs : FsModel) (name : String)
    (dir : List String) :
    findPkgInstallDir fs name dir = specInstallDir fs name dir := by
  have key : ∀ n (d : List String), d.length = n →
      findPkgInstallDir fs name d = specInstallDir fs name d := by
    intro n
    induction n using Nat.strong_induction_on with
    | _ n ih =>
      intro d hlen
      rw [findPkgInstallDir_unfold, specInstallDir, walkChain_unfold]
      by_cases hq : installDirQualifies fs name d
      · cases d with
        | nil => simp [hq, List.find?]
        | cons a l => simp [hq, List.find?]
      · cases d with
        | nil =>
          simp [hq, List.find?]
        | cons a l =>
          simp only [hq, if_false, Bool.false_eq_true, reduceCtorEq,
            if_neg (by simp : ¬(a :: l) = [])]
          rw [ih (a :: l).dropLast.length
            (by simp only [← hlen, List.length_dropLast, List.length_cons]
                omega) _ rfl]
          simp [specInstallDir, List.find?_cons, hq]
  exact key dir.length dir rfl

/-- C10: `pathExists` resolves to `true` exactly when the path is
accessible and the containing directory's listing contains an entry equal
to the queried basename character for character; any filesystem error
(failed access or failed readdir) yields `false` rather than a rejection
(the model's `pathExists` is a total boolean function whose error branches
return `false`).  On a case-insensitive filesystem where `access` succeeds
for `README.md` but the listing holds only `Readme.md`, the result is
`false`. -/
theorem C10_pathExists_case_sensitive_and_total (fs : FsModel)
    (path : List String) :
    (pathExists fs path = true ↔
      fs.accessOk path = true ∧
      ∃ names, fs.readdir path.dropLast = some names ∧
        path.getLastD "" ∈ names) ∧
    pathExists ciFs ["pkg", "README.md"] = false ∧
    pathExists ciFs ["pkg", "Readme.md"] = true := by
  refine ⟨?_, by decide, by decide⟩
  unfold pathExists
  by_cases ha : fs.accessOk path
  · simp only [ha, if_true, true_and]
    cases hr : fs.readdir path.dropLast with
    | none => simp
    | some names =>
      simp [List.contains_iff_exists_mem_beq, beq_iff_eq]
  · simp [ha]

theorem mem_setAdd {acc : List (List String)} {x y : List String} :
    y ∈ setAdd acc x ↔ y ∈ acc ∨ y = x := by
  unfold setAdd
  split
  · next h => constructor
              · exact Or.inl
              · rintro (hy | rfl)
                · exact hy
                · exact h
  · simp

theorem mem_foldl_setAdd (l : List (List String))
    (acc : List (List String)) (y : List String) :
    y ∈ l.foldl setAdd acc ↔ y ∈ acc ∨ y ∈ l := by
  induction l generalizing acc with
  | nil => simp
  | cons a as ih =>
    simp only [List.foldl_cons, ih, mem_setAdd, List.mem_cons]
    tauto

theorem mem_accumulate_from (exps : List (List (List String)))
    (acc : List (List String)) (y : List String) :
    y ∈ exps.foldl (fun a e => e.foldl setAdd a) acc ↔
      y ∈ acc ∨ ∃ e ∈ exps, y ∈ e := by
  induction exps generalizing acc with
  | nil => simp
  | cons e es ih =>
    simp only [List.foldl_cons, ih, mem_foldl_setAdd, List.mem_cons]
    constructor
    · rintro ((hy | hy) | ⟨e', he', hy⟩)
      · exact Or.inl hy
      · exact Or.inr ⟨e, Or.inl rfl, hy⟩
      · exact Or.inr ⟨e', Or.inr he', hy⟩
    · rintro (hy | ⟨e', (rfl | he'), hy⟩)
      · exact Or.inl (Or.inl hy)
      · exact Or.inl (Or.inr hy)
      · exact Or.inr ⟨e', he', hy⟩

theorem mem_accumulate (exps : List (List (List String)))
    (y : List String) :
    y ∈ accumulate exps ↔ ∃ e ∈ exps, y ∈ e := by
  unfold accumulate
  rw [mem_accumulate_from]
  simp

theorem mem_expandItem {m : String → String → Bool} {fsFiles : List String}
    {negPats : List String} {item : FilePattern} {f : String} :
    f ∈ expandItem m fsFiles negPats item ↔
      f ∈ fsFiles ∧
      (itemPatterns negPats item ++ defaultIgnoredPatterns).any
        (fun p => !jsStartsWith p "!" && m p f) = true ∧
      (itemPatterns negPats item ++ defaultIgnoredPatterns).any
        (fun p => jsStartsWith p "!" && m (p.drop 1) f) = false := by
  unfold expandItem globbyModel
  rw [List.mem_filter]
  simp [and_assoc]

theorem mem_totalFilesOf {m : String → String → Bool}
    {fsFiles : List String} {cwd : List String} {pl : List FilePattern}
    {x : List String} :
    x ∈ totalFilesOf m fsFiles cwd pl ↔
      ∃ item, item ∈ pl ∧ item.isNegated = false ∧
        ∃ f, f ∈ expandItem m fsFiles (negativePatterns pl) item ∧
          x = resolvePath cwd f := by
  unfold totalFilesOf resolvedExpansion
  rw [mem_accumulate]
  constructor
  · rintro ⟨e, he, hx⟩
    rw [List.mem_map] at he
    obtain ⟨item, hitem, rfl⟩ := he
    rw [List.mem_filter] at hitem
    rw [List.mem_map] at hx
    obtain ⟨f, hf, rfl⟩ := hx
    exact ⟨item, hitem.1, by simpa using hitem.2, f, hf, rfl⟩
  · rintro ⟨item, hitem, hneg, f, hf, rfl⟩
    refine ⟨_, List.mem_map_of_mem _ (List.mem_filter.mpr ⟨hitem, by simp [hneg]⟩), ?_⟩
    exact List.mem_map_of_mem _ hf

theorem mem_negativePatterns {pl : List FilePattern} {p : String} :
    p ∈ negativePatterns pl ↔
      ∃ q ∈ pl, q.isNegated = true ∧ q.pattern = p := by
  unfold negativePatterns
  simp only [List.mem_map, List.mem_filter]
  constructor
  · rintro ⟨q, ⟨hq, hneg⟩, rfl⟩
    exact ⟨q, hq, hneg, rfl⟩
  · rintro ⟨q, hq, hneg, rfl⟩
    exact ⟨q, ⟨hq, hneg⟩, rfl⟩

theorem defaultIgnoredPatterns_neg :
    ∀ p ∈ defaultIgnoredPatterns, jsStartsWith p "!" = true := by
  decide

theorem buildPatternList_wf :
    ∀ {children : List JsonNode} {pl : List FilePattern},
      buildPatternList children = some pl →
      ∀ i ∈ pl, i.isNegated = jsStartsWith i.pattern "!" := by
  intro children
  induction children with
  | nil =>
    intro pl h
    simp [buildPatternList] at h
    subst h
    intro i hi
    simp at hi
  | cons n rest ih =>
    intro pl h
    unfold buildPatternList at h
    split at h
    · cases hrest : buildPatternList rest with
      | none => rw [hrest] at h; simp at h
      | some ps =>
        rw [hrest] at h
        simp only [Option.map_some'] at h
        cases h
        intro i hi
        rcases List.mem_cons.mp hi with rfl | hi'
        · rfl
        · exact ih hrest i hi'
    · simp at h

theorem buildPatternList_isNone_of_nonstring
    {children : List JsonNode}
    (h : ∃ n ∈ children, n.type ≠ JsonNodeType.string) :
    buildPatternList children = none := by
  induction children with
  | nil => simp at h
  | cons n rest ih =>
    obtain ⟨n', hn', hty⟩ := h
    unfold buildPatternList
    rcases List.mem_cons.mp hn' with rfl | hmem
    · simp [hty]
    · split
      · rw [ih ⟨n', hmem, hty⟩]
        rfl
      · rfl

theorem negativePatterns_filter_pos (pl : List FilePattern) :
    negativePatterns (pl.filter (fun i => !i.isNegated)) = [] := by
  unfold negativePatterns
  rw [List.filter_filter]
  simp

/-- Claim C7: if any element of the `files` array is not a string,
resolution aborts entirely for that manifest: `getCodeLenses` returns
nothing, so no code lens — not even for well-formed patterns preceding the
malformed entry — is produced. -/
theorem C7_nonstring_pattern_aborts (m : String → String → Bool)
    (fsFiles : List String) (dfs : FsModel) (cwd : List String)
    (children : List JsonNode) (incDef : Bool) (mainEntry : Option String)
    (h : ∃ n ∈ children, n.type ≠ JsonNodeType.string) :
    getCodeLensesModel m fsFiles dfs cwd children incDef mainEntry = none := by
  unfold getCodeLensesModel
  split
  · rfl
  · rw [buildPatternList_isNone_of_nonstring h]
    rfl

/-- Witness for C7 at a concrete manifest whose `files` array is
`["dist", 42]`. -/
theorem C7_nonstring_pattern_aborts_witness :
    (∃ n ∈ [JsonNode.node JsonNodeType.string (some "dist") [],
            JsonNode.node JsonNodeType.number none []],
        n.type ≠ JsonNodeType.string) ∧
    getCodeLensesModel (fun _ _ => true) [] ciFs []
      [JsonNode.node JsonNodeType.string (some "dist") [],
       JsonNode.node JsonNodeType.number none []] false none = none :=
  ⟨by decide,
   C7_nonstring_pattern_aborts (fun _ _ => true) [] ciFs []
     [JsonNode.node JsonNodeType.string (some "dist") [],
      JsonNode.node JsonNodeType.number none []] false none (by decide)⟩

/-- Claim C1: every path matched by any negated pattern of the `files`
list — wherever it appears in the list — is excluded from each
non-negated pattern's expansion, and every member of the aggregated
all-files set is the resolution of a file matched by no negated pattern. -/
theorem C1_negation_applies_globally (m : String → String → Bool)
    (fsFiles : List String) (cwd : List String) (pl : List FilePattern)
    (hwf : ∀ i ∈ pl, i.isNegated = jsStartsWith i.pattern "!")
    (q : FilePattern) (hq : q ∈ pl) (hqneg : q.isNegated = true)
    (f : String) (hmatch : m (q.pattern.drop 1) f = true) :
    (∀ item ∈ pl, item.isNegated = false →
        f ∉ expandItem m fsFiles (negativePatterns pl) item) ∧
    (∀ x ∈ totalFilesOf m fsFiles cwd pl,
        ∃ g ∈ fsFiles, x = resolvePath cwd g ∧
          m (q.pattern.drop 1) g = false) := by
  have hqstart : jsStartsWith q.pattern "!" = true := (hwf q hq) ▸ hqneg
  have hqmem : q.pattern ∈ negativePatterns pl :=
    mem_negativePatterns.mpr ⟨q, hq, hqneg, rfl⟩
  have hexcl : ∀ (item : FilePattern), item.isNegated = false →
      ∀ (g : String), m (q.pattern.drop 1) g = true →
      (itemPatterns (negativePatterns pl) item ++ defaultIgnoredPatterns).any
        (fun p => jsStartsWith p "!" && m (p.drop 1) g) = true := by
    intro item hpos g hg
    refine List.any_eq_true.mpr ⟨q.pattern, ?_, by simp [hqstart, hg]⟩
    refine List.mem_append_left _ ?_
    unfold itemPatterns
    rw [if_neg (by simp [hpos])]
    exact List.mem_cons_of_mem _ hqmem
  constructor
  · intro item hitem hpos hfmem
    rw [mem_expandItem] at hfmem
    obtain ⟨_, _, hexc⟩ := hfmem
    rw [hexcl item hpos f hmatch] at hexc
    exact absurd hexc (by simp)
  · intro x hx
    rw [mem_totalFilesOf] at hx
    obtain ⟨item, hitem, hpos, g, hg, rfl⟩ := hx
    rw [mem_expandItem] at hg
    obtain ⟨hgfs, _, hexc⟩ := hg
    refine ⟨g, hgfs, rfl, ?_⟩
    by_contra hmg
    rw [Bool.not_eq_false] at hmg
    rw [hexcl item hpos g hmg] at hexc
    exact absurd hexc (by simp)

/-- Witness for C1: list `["a", "b", "!c"]`, file `c` matched by the
negated pattern. -/
theorem C1_negation_applies_globally_witness :
    ((∀ i ∈ samplePl, i.isNegated = jsStartsWith i.pattern "!") ∧
     (⟨true, "!c"⟩ : FilePattern) ∈ samplePl ∧
     (⟨true, "!c"⟩ : FilePattern).isNegated = true ∧
     sampleMatcher (("!c" : String).drop 1) "c" = true) ∧
    ((∀ item ∈ samplePl, item.isNegated = false →
        "c" ∉ expandItem sampleMatcher ["a", "b", "c"]
          (negativePatterns samplePl) item) ∧
     (∀ x ∈ totalFilesOf sampleMatcher ["a", "b", "c"] [] samplePl,
        ∃ g ∈ ["a", "b", "c"], x = resolvePath [] g ∧
          sampleMatcher (("!c" : String).drop 1) g = false)) :=
  ⟨⟨by decide, by decide, by decide, by decide⟩,
   C1_negation_applies_globally sampleMatcher ["a", "b", "c"] [] samplePl
     (by decide) ⟨true, "!c"⟩ (by decide) (by decide) "c" (by decide)⟩

/-- Claim C6: negation only narrows: the all-files set resolved from a
list with negated patterns is contained in the set resolved from its
non-negated patterns alone. -/
theorem C6_negation_narrows (m : String → String → Bool)
    (fsFiles : List String) (cwd : List String) (pl : List FilePattern)
    (hwf : ∀ i ∈ pl, i.isNegated = jsStartsWith i.pattern "!") :
    ∀ x ∈ totalFilesOf m fsFiles cwd pl,
      x ∈ totalFilesOf m fsFiles cwd (pl.filter (fun i => !i.isNegated)) := by
  intro x hx
  rw [mem_totalFilesOf] at hx ⊢
  obtain ⟨item, hitem, hpos, g, hg, rfl⟩ := hx
  refine ⟨item, List.mem_filter.mpr ⟨hitem, by simp [hpos]⟩, hpos, g, ?_, rfl⟩
  rw [mem_expandItem] at hg ⊢
  obtain ⟨hgfs, hinc, hexc⟩ := hg
  rw [negativePatterns_filter_pos]
  have hitempat : itemPatterns (negativePatterns pl) item =
      item.pattern :: negativePatterns pl := by
    unfold itemPatterns
    rw [if_neg (by simp [hpos])]
  have hitemtgt : itemPatterns [] item = [item.pattern] := by
    unfold itemPatterns
    rw [if_neg (by simp [hpos])]
  refine ⟨hgfs, ?_, ?_⟩
  · -- the only possible non-negated include witness is the item's own
    -- pattern: collected negated patterns and built-in ignores start
    -- with `!`
    obtain ⟨p, hpmem, hp⟩ := List.any_eq_true.mp hinc
    rw [hitempat] at hpmem
    rw [Bool.and_eq_true, Bool.not_eq_true'] at hp
    have hpitem : p = item.pattern := by
      rcases List.mem_append.mp hpmem with hleft | hign
      · rcases List.mem_cons.mp hleft with rfl | hneg
        · rfl
        · obtain ⟨qq, _, hqneg', rfl⟩ := mem_negativePatterns.mp hneg
          rw [hwf qq (by assumption)] at hqneg'
          rw [hqneg'] at hp
          simp at hp
      · rw [defaultIgnoredPatterns_neg p hign] at hp
        simp at hp
    rw [hpitem] at hp
    refine List.any_eq_true.mpr ⟨item.pattern, ?_, by simp [hp.1, hp.2]⟩
    rw [hitemtgt]
    simp
  · -- no exclusion can fire in the narrowed call: its patterns are a
    -- subset of the original call's
    rw [List.any_eq_false]
    intro p hpmem
    rw [List.any_eq_false] at hexc
    apply hexc
    rw [hitemtgt] at hpmem
    rw [hitempat]
    rcases List.mem_append.mp hpmem with hleft | hign
    · have hpeq : p = item.pattern := by simpa using hleft
      subst hpeq
      simp
    · exact List.mem_append_right _ hign

/-- Witness for C6 at the sample list `["a", "b", "!c"]`. -/
theorem C6_negation_narrows_witness :
    (∀ i ∈ samplePl, i.isNegated = jsStartsWith i.pattern "!") ∧
    (∀ x ∈ totalFilesOf sampleMatcher ["a", "b", "c"] [] samplePl,
      x ∈ totalFilesOf sampleMatcher ["a", "b", "c"] []
        (samplePl.filter (fun i => !i.isNegated))) :=
  ⟨by decide,
   C6_negation_narrows sampleMatcher ["a", "b", "c"] [] samplePl (by decide)⟩

/-- Claim C9: the aggregated all-files set does not depend on the order in
which the individual pattern expansions are merged: any permutation of the
expansion list accumulates to the same set. -/
theorem C9_accumulation_order_independent (m : String → String → Bool)
    (fsFiles : List String) (cwd : List String) (pl : List FilePattern)
    (exps' : List (List (List String)))
    (hperm : List.Perm ((pl.filter (fun i => !i.isNegated)).map
      (resolvedExpansion m fsFiles cwd (negativePatterns pl))) exps') :
    (accumulate exps').toFinset =
      (totalFilesOf m fsFiles cwd pl).toFinset := by
  ext x
  simp only [List.mem_toFinset, mem_accumulate, totalFilesOf]
  constructor
  · rintro ⟨e, he, hx⟩
    exact ⟨e, hperm.mem_iff.mpr he, hx⟩
  · rintro ⟨e, he, hx⟩
    exact ⟨e, hperm.mem_iff.mp he, hx⟩

/-- Witness for C9: merging the two positive expansions of
`["a", "b", "!c"]` in reversed order yields the same set. -/
theorem C9_accumulation_order_independent_witness :
    List.Perm ((samplePl.filter (fun i => !i.isNegated)).map
      (resolvedExpansion sampleMatcher ["a", "b", "c"] []
        (negativePatterns samplePl))) sampleSwapped ∧
    (accumulate sampleSwapped).toFinset =
      (totalFilesOf sampleMatcher ["a", "b", "c"] [] samplePl).toFinset :=
  ⟨by decide,
   C9_accumulation_order_independent sampleMatcher ["a", "b", "c"] []
     samplePl sampleSwapped (by decide)⟩

/-- Counterexample to claim C2 as stated: with `includeDefaultPackedFiles`
enabled and a package root containing `Readme.md` but no `README.md`, the
resolved all-files set does not contain `Readme.md` at all (count 0, not
exactly once): the probed candidates are only `README.md`, `README`,
`readme.md`, `readme`, and `pathExists` is case sensitive. -/
theorem C2_readme_counterexample :
    (allFilesResult (fun _ _ => false) [] readmeOnlyMixedFs ["pkg"]
      [⟨false, "src"⟩] true none).count ["pkg", "Readme.md"] = 0 := by
  decide

/-- Claim C2 (amended): default README probing tries the fixed ordered
candidate list `README.md`, `README`, `readme.md`, `readme` and stops at
the first existing hit per candidate group (`addFirstExisting` adds
exactly the first existing candidate); a root containing `README.md`
includes it exactly once even when `readme.md` also exists, while a root
containing only the mixed-case `Readme.md` — which is not among the
candidates — gets no README entry. -/
theorem C2_default_readme_probing :
    (∀ (dfs : FsModel) (acc : List (List String)) (cs : List (List String)),
      addFirstExisting dfs acc cs =
        match cs.find? (fun c => pathExists dfs c) with
        | some c => setAdd acc c
        | none => acc) ∧
    (allFilesResult (fun _ _ => false) [] readmeUpperLowerFs ["pkg"]
      [⟨false, "src"⟩] true none).count ["pkg", "README.md"] = 1 ∧
    ["pkg", "readme.md"] ∉ allFilesResult (fun _ _ => false) []
      readmeUpperLowerFs ["pkg"] [⟨false, "src"⟩] true none ∧
    ["pkg", "Readme.md"] ∉ allFilesResult (fun _ _ => false) []
      readmeOnlyMixedFs ["pkg"] [⟨false, "src"⟩] true none := by
  refine ⟨?_, by decide, by decide, by decide⟩
  intro dfs acc cs
  induction cs with
  | nil => rfl
  | cons c rest ih =>
    simp only [addFirstExisting, List.find?_cons]
    cases h : pathExists dfs c
    · simpa [h] using ih
    · simp [h]

/-- Claim C4 (code bug): `getPkgNameAndVersionFromDocPosition` is not
total.  On the valid manifest `{"files": ["x"]}` with the cursor on the
string `"x"` (tree path `[0, 1, 0]`: property 0, value, element 0), the
parent is a one-element array, so `nameNode.parent.children![1]` is
`undefined` and reading `.type` from it throws instead of returning none.
On a dependency map the function behaves as the claim says: hovering the
key yields the name and version, hovering the version yields none. -/
theorem C4_locate_crashes_on_singleton_array :
    getPkgNameAndVersionFromDocPosition (fun _ => true)
      filesArrayManifest [0, 1, 0] = Except.error () ∧
    getPkgNameAndVersionFromDocPosition (fun _ => true)
      depsManifest [0, 1, 0, 0] =
        Except.ok (some ⟨"lodash", "^1.0.0"⟩) ∧
    getPkgNameAndVersionFromDocPosition (fun _ => true)
      depsManifest [0, 1, 0, 1] = Except.ok none :=
  ⟨rfl, rfl, rfl⟩

/-- Counterexample to claim C5 as stated: a repository value that is
already an http(s) URL is passed through the first branch of
`extractGitUrl` verbatim, so a commit-ish suffix survives (and the `.git`
before it), and an `http://` scheme is not normalized to HTTPS. -/
theorem C5_https_passthrough_counterexample :
    extractGitUrl "https://github.com/user/repo.git#main" =
      some "https://github.com/user/repo.git#main" ∧
    extractGitUrl "http://github.com/user/repo" =
      some "http://github.com/user/repo" := by
  constructor <;> rfl

/-- Claim C5 (amended): repository values that do not already start with
`http://`/`https://` (case-insensitive) — shorthand `user/repo`,
`github:user/repo`, `git+` URLs — are normalized by hosted-git-info into
a canonical HTTPS URL with no `git+` prefix, no commit-ish and no
trailing `.git`; in particular
`"git+https://github.com/user/repo.git#main"` yields exactly
`https://github.com/user/repo`.  Values already starting with `http://`
or `https://` are used verbatim with only a trailing `.git` stripped
(scheme and commit-ish preserved). -/
theorem C5_extractGitUrl_normalizes :
    extractGitUrl "git+https://github.com/user/repo.git#main" =
      some "https://github.com/user/repo" ∧
    extractGitUrl "github:user/repo" = some "https://github.com/user/repo" ∧
    extractGitUrl "user/repo" = some "https://github.com/user/repo" ∧
    extractGitUrl "git://github.com/user/repo.git#v2" =
      some "https://github.com/user/repo" ∧
    extractGitUrl "https://github.com/user/repo.git" =
      some "https://github.com/user/repo" ∧
    extractGitUrl "https://github.com/user/repo#main" =
      some "https://github.com/user/repo#main" :=
  ⟨rfl, rfl, rfl, rfl, rfl, rfl⟩

/-- Claim C8: when the repository field yields no URL and the manifest has
a bugs URL, the repository URL is derived from the bugs URL with its
`/issues` suffix (and everything after it) stripped, a Repository link
for it is rendered, and the homepage link is suppressed when the homepage
equals the derived repository URL. -/
theorem C8_bugs_fallback_and_homepage_suppression
    (pkg : PkgManifestUrls) (b : String) (name : String)
    (iv : Option String)
    (hrepo : derivedRepoFromField pkg = none)
    (hbugs : tryGetUrl pkg.bugs = some b) :
    (pkgWebsitesUrls pkg).2 = extractGitUrl (bugsToRepo b) ∧
    (tryGetUrl pkg.homepage = extractGitUrl (bugsToRepo b) →
      (pkgWebsitesUrls pkg).1 = none) ∧
    (∀ r, (pkgWebsitesUrls pkg).2 = some r →
      ("[Repository](" ++ r ++ ")") ∈ pkgWebsitesLinks pkg name iv) := by
  have hderived : derivedRepoUrl pkg = extractGitUrl (bugsToRepo b) := by
    unfold derivedRepoUrl
    rw [hrepo, hbugs]
  refine ⟨?_, ?_, ?_⟩
  · unfold pkgWebsitesUrls
    rw [hderived]
  · intro hhome
    unfold pkgWebsitesUrls
    rw [hderived, hhome]
    simp
  · intro r hr
    simp [pkgWebsitesLinks, hr]

/-- Witness for C8 at `sampleBugsPkg`: the repository URL becomes
`https://github.com/u/r` and the identical homepage is suppressed. -/
theorem C8_bugs_fallback_and_homepage_suppression_witness :
    (derivedRepoFromField sampleBugsPkg = none ∧
     tryGetUrl sampleBugsPkg.bugs =
       some "https://github.com/u/r/issues/123") ∧
    ((pkgWebsitesUrls sampleBugsPkg).2 =
      extractGitUrl (bugsToRepo "https://github.com/u/r/issues/123") ∧
     (tryGetUrl sampleBugsPkg.homepage =
        extractGitUrl (bugsToRepo "https://github.com/u/r/issues/123") →
       (pkgWebsitesUrls sampleBugsPkg).1 = none) ∧
     (∀ r, (pkgWebsitesUrls sampleBugsPkg).2 = some r →
       ("[Repository](" ++ r ++ ")") ∈
         pkgWebsitesLinks sampleBugsPkg "left-pad" none)) :=
  ⟨⟨rfl, rfl⟩,
   C8_bugs_fallback_and_homepage_suppression sampleBugsPkg
     "https://github.com/u/r/issues/123" "left-pad" none rfl rfl⟩

/-- C3: `findPkgInstallDir` returns `none` exactly when no directory on
the walk from the starting directory up to the boundary root has both
`node_modules/<name>` and `node_modules/<name>/package.json`; otherwise it
returns `<d>/node_modules/<name>` for the nearest such directory `d`
(`specInstallDir` takes the first qualifying directory of the
nearest-first walk chain). -/
theorem C3_findPkgInstallDir_correct (fs : FsModel) (name : String)
    (dir : List String) :
    findPkgInstallDir fs name dir = specInstallDir fs name dir ∧
    (findPkgInstallDir fs name dir = none ↔
      ∀ d ∈ walkChain dir, installDirQualifies fs name d = false) := by
  refine ⟨findPkgInstallDir_eq_spec fs name dir, ?_⟩
  rw [findPkgInstallDir_eq_spec fs name dir, specInstallDir]
  simp [List.find?_eq_none]

end PME
